import Mathlib

/-!
Shallow embedding of the rules_k8s resolver (k8s/go/cmd/resolver/resolver.go):
image-spec parsing, image publishing, tag resolution with memoization, and the
generic recursive YAML document walk, together with theorems about their
behaviour.  External collaborators (the registry transport, keychain and the
strict tag parser from go-containerregistry, and the underlying YAML scalar
decoder) are modelled as explicit oracle parameters; everything else is a
direct translation of the Go source.
-/

namespace K8sResolver

/-- Splitting a character list at every occurrence of a separator, mirroring
the Go strings.Split semantics for a single-character separator. -/
def splitList (sep : Char) : List Char → List (List Char)
  | [] => [[]]
  | c :: cs =>
    match splitList sep cs with
    | g :: gs => if c = sep then [] :: g :: gs else (c :: g) :: gs
    | [] => [[c]]

/-- Model of strings.Split for a single-character separator. -/
def goSplit (sep : Char) (s : String) : List String :=
  (splitList sep s.data).map String.mk

/-- Model of strings.SplitN with limit 2 for a single-character separator:
everything before the first separator, then everything after it; a single
element when the separator does not occur. -/
def splitN2 (sep : Char) (s : String) : List String :=
  match s.data.dropWhile (fun c => c ≠ sep) with
  | [] => [String.mk (s.data.takeWhile (fun c => c ≠ sep))]
  | _ :: rest => [String.mk (s.data.takeWhile (fun c => c ≠ sep)), String.mk rest]

/-- The structured image description built by parseImageSpec, mirroring the
Go struct imageSpec (the field uncomressedLayers keeps the spelling of the
source). -/
structure imageSpec where
  name : String := ""
  imgTarball : String := ""
  imgConfig : String := ""
  digests : List String := []
  diffIDs : List String := []
  compressedLayers : List String := []
  uncomressedLayers : List String := []
deriving DecidableEq

/-- Errors produced by parseImageSpec and imageSpec.layers; each constructor
carries exactly the data interpolated into the corresponding fmt.Errorf
format string of the source. -/
inductive GoErr where
  | malformedPair (item : String) (got : Nat)
  | unknownKey (key : String)
  | unequalLengths (name : String) (nDigests nDiffIDs nCompressed nUncompressed : Nat)
deriving DecidableEq

/-- Body of the loop of parseImageSpec: one semicolon-separated item is split
at the first equals sign and dispatched on the key, mirroring the Go switch. -/
def parseSpecItem (result : imageSpec) (s : String) : Except GoErr imageSpec :=
  match splitN2 '=' s with
  | [k, v] =>
    if k = "name" then .ok { result with name := v }
    else if k = "tarball" then .ok { result with imgTarball := v }
    else if k = "config" then .ok { result with imgConfig := v }
    else if k = "diff_id" then .ok { result with diffIDs := goSplit ',' v }
    else if k = "digest" then .ok { result with digests := goSplit ',' v }
    else if k = "compressed_layer" then .ok { result with compressedLayers := goSplit ',' v }
    else if k = "uncompressed_layer" then .ok { result with uncomressedLayers := goSplit ',' v }
    else .error (.unknownKey k)
  | fields => .error (.malformedPair s fields.length)

/-- Parsing of a whole image-spec string: split on semicolons and fold the
item parser over the pieces, starting from the zero-valued spec. -/
def parseImageSpec (spec : String) : Except GoErr imageSpec :=
  (goSplit ';' spec).foldlM parseSpecItem {}

/-- The loop of imageSpec.layers: one combined token per index, built from
the i-th compressed layer, uncompressed layer, digest and diffID. -/
def layerTokens : List String → List String → List String → List String → List String
  | c :: cs, u :: us, d :: ds, i :: is =>
    (c ++ "," ++ u ++ "," ++ d ++ "," ++ i) :: layerTokens cs us ds is
  | _, _, _, _ => []

/-- Model of imageSpec.layers: reject unequal list lengths with an error
naming the image and all four lengths, otherwise pair up the four lists
index by index. -/
def imageSpec.layers (s : imageSpec) : Except GoErr (List String) :=
  if s.digests.length ≠ s.diffIDs.length ∨ s.diffIDs.length ≠ s.compressedLayers.length ∨
      s.compressedLayers.length ≠ s.uncomressedLayers.length then
    .error (.unequalLengths s.name s.digests.length s.diffIDs.length
      s.compressedLayers.length s.uncomressedLayers.length)
  else
    .ok (layerTokens s.compressedLayers s.uncomressedLayers s.digests s.diffIDs)

/-- Lookup in an association list modelling a Go map from strings to
strings. -/
def lookupStr : List (String × String) → String → Option String
  | [], _ => none
  | (k0, v0) :: rest, k => if k0 = k then some v0 else lookupStr rest k

/-- Assignment in an association list modelling a Go map from strings to
strings: replace the value stored at an existing key, otherwise append the
new binding. -/
def insertStr : List (String × String) → String → String → List (String × String)
  | [], k, v => [(k, v)]
  | (k0, v0) :: rest, k, v =>
    if k0 = k then (k0, v) :: rest else (k0, v0) :: insertStr rest k v

/-- Assignment of the value true in a Go map from strings to booleans used
as a set: add the key when absent, otherwise leave the set unchanged. -/
def setInsert (l : List String) (k : String) : List String :=
  if k ∈ l then l else l ++ [k]

/-- The loop of publish, with the accumulated overrides map and unseen set
made explicit: each spec is published in turn, the first failure aborts with
that error, and on success the maps built so far gain the name of the spec. -/
def publishGo {ε : Type} (ps : imageSpec → Except ε String) :
    List imageSpec → List (String × String) → List String →
    Except ε (List (String × String) × List String)
  | [], overrides, unseen => .ok (overrides, unseen)
  | s :: rest, overrides, unseen =>
    match ps s with
    | .error e => .error e
    | .ok digestRef =>
      publishGo ps rest (insertStr overrides s.name digestRef) (setInsert unseen s.name)

/-- Model of publish: fold publishSingle (an oracle, since its body is all
external registry and image-reading collaborators) over the specs, starting
from empty maps. -/
def publish {ε : Type} (ps : imageSpec → Except ε String) (specs : List imageSpec) :
    Except ε (List (String × String) × List String) :=
  publishGo ps specs [] []

/-- Instrumented form of the publish loop that also records which specs were
attempted, in order. -/
def publishTrGo {ε : Type} (ps : imageSpec → Except ε String) :
    List imageSpec → List (String × String) → List String → List imageSpec →
    Except ε (List (String × String) × List String) × List imageSpec
  | [], overrides, unseen, tr => (.ok (overrides, unseen), tr)
  | s :: rest, overrides, unseen, tr =>
    match ps s with
    | .error e => (.error e, tr ++ [s])
    | .ok digestRef =>
      publishTrGo ps rest (insertStr overrides s.name digestRef)
        (setInsert unseen s.name) (tr ++ [s])

/-- Instrumented publish: the same result as publish together with the list
of specs on which publishSingle was attempted. -/
def publishTr {ε : Type} (ps : imageSpec → Except ε String) (specs : List imageSpec) :
    Except ε (List (String × String) × List String) × List imageSpec :=
  publishTrGo ps specs [] [] []

/-- A strict-form tag reference as produced by name.NewTag with strict
validation: a registry host, a repository path and a tag. -/
structure Tag where
  registry : String
  repository : String
  tag : String
deriving DecidableEq

/-- The descriptor metadata fetched by remote.Get; only the digest is used
by the resolver. -/
structure Descriptor where
  digest : String
deriving DecidableEq

/-- Credentials returned by the keychain. -/
structure Authenticator where
  token : String
deriving DecidableEq

/-- The external registry collaborators used by resolveString, modelled as
pure oracles: the strict tag parser, the default keychain, and the remote
descriptor fetch.  A none result models the corresponding Go call returning
an error. -/
structure RegistryEnv where
  newTag : String → Option Tag
  resolveKeychain : Tag → Option Authenticator
  remoteGet : Tag → Authenticator → Option Descriptor

/-- The mutable fields of the Go resolver struct: the memoization cache from
tagged names to digest references, the set of unseen image names, and the
document counter. -/
structure ResolverState where
  resolvedImages : List (String × String)
  unseen : List String
  numDocs : Nat
deriving DecidableEq

/-- Model of resolveString: drop the string from the unseen set, consult the
memoization cache, then strictly parse the string as a tag, resolve
credentials and fetch the remote descriptor; every failure returns the
string unchanged, and a successful fetch caches and returns the digest
reference. -/
def resolveString (env : RegistryEnv) (r : ResolverState) (s : String) :
    Except String (String × ResolverState) :=
  let r1 := { r with unseen := r.unseen.filter (fun x => x ≠ s) }
  match lookupStr r1.resolvedImages s with
  | some o => .ok (o, r1)
  | none =>
    match env.newTag s with
    | none => .ok (s, r1)
    | some t =>
      match env.resolveKeychain t with
      | none => .ok (s, r1)
      | some auth =>
        match env.remoteGet t auth with
        | none => .ok (s, r1)
        | some desc =>
          let resolved := t.registry ++ "/" ++ t.repository ++ "@" ++ desc.digest
          .ok (resolved, { r1 with resolvedImages := insertStr r1.resolvedImages s resolved })

/-- One call to an external registry collaborator, labelled with whether the
call succeeded. -/
inductive RegCall where
  | tagParse (ok : Bool)
  | authResolve (ok : Bool)
  | descFetch (ok : Bool)
deriving DecidableEq

/-- Instrumented form of resolveString that also records, in order, the
external registry calls the Go code performs on this path. -/
def resolveStringTr (env : RegistryEnv) (r : ResolverState) (s : String) :
    Except String (String × ResolverState) × List RegCall :=
  let r1 := { r with unseen := r.unseen.filter (fun x => x ≠ s) }
  match lookupStr r1.resolvedImages s with
  | some o => (.ok (o, r1), [])
  | none =>
    match env.newTag s with
    | none => (.ok (s, r1), [.tagParse false])
    | some t =>
      match env.resolveKeychain t with
      | none => (.ok (s, r1), [.tagParse true, .authResolve false])
      | some auth =>
        match env.remoteGet t auth with
        | none => (.ok (s, r1), [.tagParse true, .authResolve true, .descFetch false])
        | some desc =>
          let resolved := t.registry ++ "/" ++ t.repository ++ "@" ++ desc.digest
          (.ok (resolved, { r1 with resolvedImages := insertStr r1.resolvedImages s resolved }),
            [.tagParse true, .authResolve true, .descFetch true])

/-- Count of descriptor fetches (successful or not) in a call trace. -/
def fetchCount (tr : List RegCall) : Nat :=
  (tr.filter (fun c => match c with | .descFetch _ => true | _ => false)).length

/-- The universal in-memory shape of one decoded YAML value: the interface
values the Go walk dispatches on (string, list, map, integer, boolean and
the nil interface).  Mappings are carried as association lists in visit
order, since the walk rebuilds them by successive Go map assignments. -/
inductive Node where
  | str (s : String)
  | int (n : Int)
  | bool (b : Bool)
  | null
  | seq (l : List Node)
  | map (m : List (Node × Node))

mutual

/-- Structural equality of nodes, modelling the Go interface equality used
by map assignment on the keys that occur in practice. -/
def nodeEq : Node → Node → Bool
  | .str a, .str b => a == b
  | .int a, .int b => a == b
  | .bool a, .bool b => a == b
  | .null, .null => true
  | .seq a, .seq b => nodeListEq a b
  | .map a, .map b => nodePairsEq a b
  | _, _ => false

/-- Elementwise equality of node lists. -/
def nodeListEq : List Node → List Node → Bool
  | [], [] => true
  | a :: as, b :: bs => nodeEq a b && nodeListEq as bs
  | _, _ => false

/-- Elementwise equality of node pair lists. -/
def nodePairsEq : List (Node × Node) → List (Node × Node) → Bool
  | [], [] => true
  | (k1, v1) :: as, (k2, v2) :: bs => nodeEq k1 k2 && nodeEq v1 v2 && nodePairsEq as bs
  | _, _ => false

end

/-- Assignment in an association list modelling a Go map from nodes to
nodes: replace the value stored at an existing key, otherwise append the
new binding. -/
def insertNode : List (Node × Node) → Node → Node → List (Node × Node)
  | [], k, v => [(k, v)]
  | (k0, v0) :: rest, k, v =>
    if nodeEq k0 k then (k0, v) :: rest else (k0, v0) :: insertNode rest k v

/-- Errors raised while walking a document; each wrapping constructor
carries exactly the data interpolated into the corresponding fmt.Errorf
format string of the source (the failing item, key or value, and the inner
error), and strErr carries an error returned by the injected string
resolver. -/
inductive RErr where
  | strErr (msg : String)
  | listItem (item : Node) (inner : RErr)
  | mapKey (key : Node) (inner : RErr)
  | mapValue (value : Node) (inner : RErr)

/-- The type of the pluggable string resolver carried by the Go resolver
struct: it transforms one string and may update the resolver state or
fail. -/
def StrResolver : Type :=
  ResolverState → String → Except String (String × ResolverState)

mutual

/-- Model of resolver.resolveItem: resolve a string through the injected
string resolver, recurse into lists and maps, and return every other shape
unchanged. -/
def resolveItem (sr : StrResolver) (st : ResolverState) : Node → Except RErr (Node × ResolverState)
  | .str s =>
    match sr st s with
    | .error e => .error (.strErr e)
    | .ok (o, st1) => .ok (.str o, st1)
  | .seq l =>
    match resolveList sr st l with
    | .error e => .error e
    | .ok (o, st1) => .ok (.seq o, st1)
  | .map m =>
    match resolveMapGo sr st [] m with
    | .error e => .error e
    | .ok (o, st1) => .ok (.map o, st1)
  | .int n => .ok (.int n, st)
  | .bool b => .ok (.bool b, st)
  | .null => .ok (.null, st)

/-- Model of resolver.resolveList: resolve each element in order, wrapping
the first failure in an error naming the failing item. -/
def resolveList (sr : StrResolver) (st : ResolverState) :
    List Node → Except RErr (List Node × ResolverState)
  | [] => .ok ([], st)
  | i :: rest =>
    match resolveItem sr st i with
    | .error e => .error (.listItem i e)
    | .ok (o, st1) =>
      match resolveList sr st1 rest with
      | .error e => .error e
      | .ok (os, st2) => .ok (o :: os, st2)

/-- The loop of resolver.resolveMap with the result map it accumulates made
explicit: resolve each key and then each value in visit order, wrapping the
first failure in an error naming the offending key or value, and assign the
resolved pair into the result map. -/
def resolveMapGo (sr : StrResolver) (st : ResolverState) (acc : List (Node × Node)) :
    List (Node × Node) → Except RErr (List (Node × Node) × ResolverState)
  | [] => .ok (acc, st)
  | (k, v) :: rest =>
    match resolveItem sr st k with
    | .error e => .error (.mapKey k e)
    | .ok (rk, st1) =>
      match resolveItem sr st1 v with
      | .error e => .error (.mapValue v e)
      | .ok (rv, st2) => resolveMapGo sr st2 (insertNode acc rk rv) rest

end

/-- Model of resolver.resolveMap: the accumulating loop started from the
empty result map. -/
def resolveMap (sr : StrResolver) (st : ResolverState) (m : List (Node × Node)) :
    Except RErr (List (Node × Node) × ResolverState) :=
  resolveMapGo sr st [] m

/-- The underlying YAML decoder for one document, abstracted over the shapes
it would accept: each field is some decoded value exactly when the
corresponding unmarshal call of the underlying library would succeed for
that target shape, and none when it would return an error. -/
structure Unmarshaler where
  uList : Option (List Node)
  uMap : Option (List (Node × Node))
  uInt : Option Int
  uBool : Option Bool
  uStr : Option String

/-- The Go yamlDoc struct: at most one populated variant together with the
flags the source sets after a successful unmarshal (list and map nil-ness is
carried by an Option). -/
structure yamlDoc where
  vList : Option (List Node) := none
  vMap : Option (List (Node × Node)) := none
  isInt : Bool := false
  vInt : Int := 0
  isBool : Bool := false
  vBool : Bool := false
  isStr : Bool := false
  vStr : String := ""

/-- Model of yamlDoc.UnmarshalYAML: try to decode the document as a list,
then a map, then an integer, then a boolean, then a string, returning after
the first attempt that succeeds, and failing only when all five fail. -/
def unmarshalYAML (u : Unmarshaler) : Except String yamlDoc :=
  match u.uList with
  | some l => .ok { vList := some l }
  | none =>
    match u.uMap with
    | some m => .ok { vMap := some m }
    | none =>
      match u.uInt with
      | some n => .ok { isInt := true, vInt := n }
      | none =>
        match u.uBool with
        | some b => .ok { isBool := true, vBool := b }
        | none =>
          match u.uStr with
          | some s => .ok { isStr := true, vStr := s }
          | none => .error "unable to parse given blob as a YAML list, map or string, integer or boolean"

/-- The five document shapes the decoder can try. -/
inductive YShape where
  | sequence
  | mapping
  | integer
  | boolean
  | strScalar
deriving DecidableEq

/-- Modelled from the spec: the fixed decode precedence of the Stream Codec,
written as the order in which the five shapes are listed there (sequence,
then mapping, then integer, then boolean, then string). -/
def specOrder : List YShape :=
  [.sequence, .mapping, .integer, .boolean, .strScalar]

/-- Whether the underlying decoder accepts a given target shape. -/
def shapeAccepted (u : Unmarshaler) : YShape → Bool
  | .sequence => u.uList.isSome
  | .mapping => u.uMap.isSome
  | .integer => u.uInt.isSome
  | .boolean => u.uBool.isSome
  | .strScalar => u.uStr.isSome

/-- Modelled from the spec: the shape a document decodes to is the first
shape in the fixed precedence list that parses without error. -/
def specFirstShape (u : Unmarshaler) : Option YShape :=
  specOrder.find? (shapeAccepted u)

/-- The variant populated in a decoded document, reading the fields the way
yamlDoc.val does. -/
def docShape (d : yamlDoc) : Option YShape :=
  if d.vList.isSome then some .sequence
  else if d.vMap.isSome then some .mapping
  else if d.isInt then some .integer
  else if d.isBool then some .boolean
  else if d.isStr then some .strScalar
  else none

/-- Modelled from the spec: the underlying YAML library behaviour on an
unquoted all-digit scalar, which is accepted both by the integer decoder
(with its numeric value) and by the string decoder (with its text), and by
neither the list, map nor boolean decoders; the library itself is an
external collaborator absent from src. -/
def allDigitScalar (text : String) (value : Int) : Unmarshaler :=
  { uList := none, uMap := none, uInt := some value, uBool := none, uStr := some text }

/-- Fixture: a registry whose strict tag parser rejects every string. -/
def envReject : RegistryEnv :=
  { newTag := fun _ => none, resolveKeychain := fun _ => none, remoteGet := fun _ _ => none }

/-- Fixture: a registry that parses one tag, resolves credentials, and
serves a descriptor for it. -/
def envGood : RegistryEnv :=
  { newTag := fun s => if s = "gcr.io/foo/bar:v1" then some ⟨"gcr.io", "foo/bar", "v1"⟩ else none,
    resolveKeychain := fun _ => some ⟨"tok"⟩,
    remoteGet := fun _ _ => some ⟨"sha256:abc"⟩ }

/-- Fixture: a registry that parses every string and resolves credentials
but fails every descriptor fetch. -/
def envFetchFail : RegistryEnv :=
  { newTag := fun _ => some ⟨"reg", "repo", "tag"⟩,
    resolveKeychain := fun _ => some ⟨"tok"⟩,
    remoteGet := fun _ _ => none }

/-- Fixture: an empty resolver state. -/
def st0 : ResolverState := ⟨[], [], 0⟩

/-- Fixture: a publishSingle oracle that fails on the spec named bad and
otherwise returns a reference derived from the name. -/
def psDemo : imageSpec → Except String String :=
  fun s => if s.name = "bad" then .error "boom" else .ok ("ref-" ++ s.name)

/-- Fixture: a string resolver that sends both the strings a and b to the
same string z and leaves everything else unchanged. -/
def srCollapse : StrResolver :=
  fun st s => .ok (if s = "a" then "z" else if s = "b" then "z" else s, st)

/-- Fixture: a string resolver that fails on the string bad and otherwise
acts as the identity. -/
def srBoom : StrResolver :=
  fun st s => if s = "bad" then .error "boom" else .ok (s, st)

/-- Fixture: an image spec with two layers in each of the four lists. -/
def specEq : imageSpec :=
  { name := "img", digests := ["d1", "d2"], diffIDs := ["i1", "i2"],
    compressedLayers := ["c1", "c2"], uncomressedLayers := ["u1", "u2"] }

/-- Fixture: an image spec whose four layer lists have unequal lengths. -/
def specBad : imageSpec :=
  { name := "img", digests := ["d1"] }

/-- Fixture: a resolver state with one cached binding and two unseen
names. -/
def rFix : ResolverState :=
  ⟨[("k", "v")], ["gcr.io/foo/bar:v1", "other"], 0⟩

/-- Fixture: the state rFix after successfully resolving the unseen tag at
the registry envGood. -/
def rFixAfter : ResolverState :=
  ⟨[("k", "v"), ("gcr.io/foo/bar:v1", "gcr.io/foo/bar@sha256:abc")], ["other"], 0⟩

/-- Looking up a key after an assignment: the assigned key now maps to the
new value and every other key is unchanged. -/
theorem lookupStr_insertStr (m : List (String × String)) (a b k : String) :
    lookupStr (insertStr m a b) k = if a = k then some b else lookupStr m k := by
  induction m with
  | nil => simp [insertStr, lookupStr]
  | cons hd tl ih =>
    obtain ⟨k0, v0⟩ := hd
    by_cases h0 : k0 = a
    · subst h0
      by_cases hk : k0 = k <;> simp [insertStr, lookupStr, hk]
    · simp only [insertStr, if_neg h0, lookupStr, ih]
      by_cases hk : k0 = k
      · subst hk
        have ha : ¬a = k0 := fun h => h0 h.symm
        simp [ha]
      · simp [hk]

/-- C1: the default string-resolution policy is total: it always returns a
string, and a string that is neither a cache key nor a strict tag reference
is returned unchanged with the memoization cache untouched. -/
theorem resolveString_total_passthrough (env : RegistryEnv) (r : ResolverState) (s : String) :
    (∃ out r1, resolveString env r s = .ok (out, r1)) ∧
    (env.newTag s = none → lookupStr r.resolvedImages s = none →
      ∃ r1, resolveString env r s = .ok (s, r1) ∧ r1.resolvedImages = r.resolvedImages) := by
  constructor
  · simp only [resolveString]
    repeat' first
      | exact ⟨_, _, rfl⟩
      | split
  · intro hTag hLk
    simp only [resolveString, hLk, hTag]
    exact ⟨_, rfl, rfl⟩

/-- C1 witness: the policy at a concrete rejecting registry, empty state and
a concrete string. -/
theorem resolveString_total_passthrough_witness :
    (∃ out r1, resolveString envReject st0 "hello" = .ok (out, r1)) ∧
    (∃ r1, resolveString envReject st0 "hello" = .ok ("hello", r1) ∧
      r1.resolvedImages = st0.resolvedImages) := by
  have h := resolveString_total_passthrough envReject st0 "hello"
  exact ⟨h.1, h.2 rfl rfl⟩

/-- C2: one decoded document holds the first shape, in the fixed precedence
sequence, mapping, integer, boolean, string, that the underlying decoder
accepts, and an all-digit scalar (accepted by both the integer and the
string decoders) therefore decodes to the integer variant and not to the
string variant. -/
theorem unmarshalYAML_precedence :
    (∀ u : Unmarshaler, (unmarshalYAML u).toOption.bind docShape = specFirstShape u) ∧
    (∀ (text : String) (value : Int),
      unmarshalYAML (allDigitScalar text value) = .ok { isInt := true, vInt := value } ∧
      docShape { isInt := true, vInt := value } = some .integer) := by
  constructor
  · intro u
    obtain ⟨ul, um, ui, ub, us⟩ := u
    cases ul <;> cases um <;> cases ui <;> cases ub <;> cases us <;>
      simp [unmarshalYAML, specFirstShape, specOrder, shapeAccepted, docShape,
        List.find?, Except.toOption, Option.bind]
  · intro text value
    exact ⟨rfl, rfl⟩

/-- Pairing up four lists preserves the common length when all four lengths
agree. -/
theorem layerTokens_length (cs us ds «is» : List String)
    (h1 : cs.length = us.length) (h2 : us.length = ds.length)
    (h3 : ds.length = «is».length) :
    (layerTokens cs us ds «is»).length = ds.length := by
  induction cs generalizing us ds «is» with
  | nil =>
    cases us with
    | cons _ _ => simp at h1
    | nil =>
      cases ds with
      | cons _ _ => simp at h2
      | nil =>
        cases «is» with
        | cons _ _ => simp at h3
        | nil => rfl
  | cons c cs ih =>
    cases us with
    | nil => simp at h1
    | cons u us =>
      cases ds with
      | nil => simp at h2
      | cons d ds =>
        cases «is» with
        | nil => simp at h3
        | cons i0 is0 =>
          simp only [layerTokens, List.length_cons]
          rw [ih us ds is0 (by simpa using h1) (by simpa using h2) (by simpa using h3)]

/-- The i-th combined token is built from the i-th element of each of the
four lists. -/
theorem layerTokens_getElem (cs us ds «is» : List String) (i : Nat) (c u d di : String)
    (hc : cs[i]? = some c) (hu : us[i]? = some u) (hd : ds[i]? = some d)
    (hdi : «is»[i]? = some di) :
    (layerTokens cs us ds «is»)[i]? = some (c ++ "," ++ u ++ "," ++ d ++ "," ++ di) := by
  induction cs generalizing us ds «is» i with
  | nil => simp at hc
  | cons c0 cs ih =>
    cases us with
    | nil => simp at hu
    | cons u0 us =>
      cases ds with
      | nil => simp at hd
      | cons d0 ds =>
        cases «is» with
        | nil => simp at hdi
        | cons i0 is0 =>
          cases i with
          | zero => simp_all [layerTokens]
          | succ n =>
            simp only [List.getElem?_cons_succ] at hc hu hd hdi
            simp only [layerTokens, List.getElem?_cons_succ]
            exact ih us ds is0 n hc hu hd hdi

/-- C8: for equal-length layer lists, layers succeeds with exactly one
four-field token per index in original order; for unequal lengths it fails
with an error naming the image name and all four lengths. -/
theorem layers_tokens_and_error (s : imageSpec) :
    (s.digests.length = s.diffIDs.length → s.diffIDs.length = s.compressedLayers.length →
      s.compressedLayers.length = s.uncomressedLayers.length →
      ∃ toks, s.layers = .ok toks ∧ toks.length = s.digests.length ∧
        ∀ (i : Nat) (c u d di : String),
          s.compressedLayers[i]? = some c → s.uncomressedLayers[i]? = some u →
          s.digests[i]? = some d → s.diffIDs[i]? = some di →
          toks[i]? = some (c ++ "," ++ u ++ "," ++ d ++ "," ++ di)) ∧
    (¬(s.digests.length = s.diffIDs.length ∧ s.diffIDs.length = s.compressedLayers.length ∧
        s.compressedLayers.length = s.uncomressedLayers.length) →
      s.layers = .error (.unequalLengths s.name s.digests.length s.diffIDs.length
        s.compressedLayers.length s.uncomressedLayers.length)) := by
  constructor
  · intro h1 h2 h3
    refine ⟨layerTokens s.compressedLayers s.uncomressedLayers s.digests s.diffIDs, ?_, ?_, ?_⟩
    · simp [imageSpec.layers, h1, h2, h3]
    · exact layerTokens_length _ _ _ _ (by omega) (by omega) (by omega)
    · intro i c u d di hc hu hd hdi
      exact layerTokens_getElem _ _ _ _ i c u d di hc hu hd hdi
  · intro h
    have hor : s.digests.length ≠ s.diffIDs.length ∨ s.diffIDs.length ≠ s.compressedLayers.length ∨
        s.compressedLayers.length ≠ s.uncomressedLayers.length := by tauto
    simp only [imageSpec.layers]
    rw [if_pos hor]

/-- C8 witness: layers at a concrete two-layer spec and at a concrete spec
with unequal lengths. -/
theorem layers_tokens_and_error_witness :
    (∃ toks, specEq.layers = .ok toks ∧ toks.length = specEq.digests.length) ∧
    specBad.layers = .error (.unequalLengths "img" 1 0 0 0) := by
  constructor
  · obtain ⟨toks, hok, hlen, _⟩ := (layers_tokens_and_error specEq).1 rfl rfl rfl
    exact ⟨toks, hok, hlen⟩
  · exact (layers_tokens_and_error specBad).2 (by decide)

/-- Scanning up to the first separator keeps exactly the separator-free
part in front of it. -/
theorem takeWhile_sep (sep : Char) (pre post : List Char) (h : ∀ c ∈ pre, c ≠ sep) :
    (pre ++ sep :: post).takeWhile (fun c => c ≠ sep) = pre := by
  induction pre with
  | nil => rw [List.nil_append, List.takeWhile_cons_of_neg (by simp)]
  | cons c pre ih =>
    have hc : c ≠ sep := h c (List.mem_cons_self c pre)
    rw [List.cons_append, List.takeWhile_cons_of_pos (by simpa using hc),
      ih (fun x hx => h x (List.mem_cons_of_mem c hx))]

/-- Dropping up to the first separator leaves the separator and everything
after it. -/
theorem dropWhile_sep (sep : Char) (pre post : List Char) (h : ∀ c ∈ pre, c ≠ sep) :
    (pre ++ sep :: post).dropWhile (fun c => c ≠ sep) = sep :: post := by
  induction pre with
  | nil => rw [List.nil_append, List.dropWhile_cons_of_neg (by simp)]
  | cons c pre ih =>
    have hc : c ≠ sep := h c (List.mem_cons_self c pre)
    rw [List.cons_append, List.dropWhile_cons_of_pos (by simpa using hc),
      ih (fun x hx => h x (List.mem_cons_of_mem c hx))]

/-- Splitting at the first equals sign: a separator-free key followed by an
equals sign splits into the key and the whole remainder, even when the
remainder contains further equals signs. -/
theorem splitN2_concat (a b : String) (h : ∀ c ∈ a.data, c ≠ '=') :
    splitN2 '=' (a ++ "=" ++ b) = [a, b] := by
  have hdata : (a ++ "=" ++ b).data = a.data ++ ('=' :: b.data) := by
    have h0 : (a ++ "=" ++ b).data = (a.data ++ ['=']) ++ b.data := rfl
    rw [h0, List.append_assoc]
    rfl
  simp only [splitN2, hdata, dropWhile_sep _ _ _ h, takeWhile_sep _ _ _ h]

/-- C9: one image-spec item is split at the first equals sign only, so the
value is everything after the first equals sign, and the malformed-pair
error arises exactly for an item with no equals sign at all. -/
theorem parseSpecItem_first_equals :
    (∀ (a b : String), (∀ c ∈ a.data, c ≠ '=') → splitN2 '=' (a ++ "=" ++ b) = [a, b]) ∧
    (∀ (acc : imageSpec) (s : String),
      parseSpecItem acc s = .error (.malformedPair s 1) ↔ ∀ c ∈ s.data, c ≠ '=') ∧
    (∀ (acc : imageSpec) (v : String),
      parseSpecItem acc ("name" ++ "=" ++ v) = .ok { acc with name := v } ∧
      parseSpecItem acc ("tarball" ++ "=" ++ v) = .ok { acc with imgTarball := v } ∧
      parseSpecItem acc ("config" ++ "=" ++ v) = .ok { acc with imgConfig := v } ∧
      parseSpecItem acc ("diff_id" ++ "=" ++ v) = .ok { acc with diffIDs := goSplit ',' v } ∧
      parseSpecItem acc ("digest" ++ "=" ++ v) = .ok { acc with digests := goSplit ',' v } ∧
      parseSpecItem acc ("compressed_layer" ++ "=" ++ v) =
        .ok { acc with compressedLayers := goSplit ',' v } ∧
      parseSpecItem acc ("uncompressed_layer" ++ "=" ++ v) =
        .ok { acc with uncomressedLayers := goSplit ',' v }) := by
  refine ⟨splitN2_concat, ?_, ?_⟩
  · intro acc s
    constructor
    · intro h
      by_contra hne
      have hdw : s.data.dropWhile (fun c => c ≠ '=') ≠ [] := by
        intro hd
        exact hne (fun c hc => by simpa using (List.dropWhile_eq_nil_iff.mp hd) c hc)
      cases hd : s.data.dropWhile (fun c => c ≠ '=') with
      | nil => exact hdw hd
      | cons c rest =>
        simp only [parseSpecItem, splitN2, hd] at h
        split_ifs at h
        simp_all
    · intro h
      have hdw : s.data.dropWhile (fun c => c ≠ '=') = [] :=
        List.dropWhile_eq_nil_iff.mpr (fun x hx => by simpa using h x hx)
      simp only [parseSpecItem, splitN2, hdw]
      rfl
  · intro acc v
    refine ⟨?_, ?_, ?_, ?_, ?_, ?_, ?_⟩ <;>
      · rw [parseSpecItem.eq_def, splitN2_concat _ v (by decide)]
        simp

/-- C9 witness: the item splitter and the item parser at concrete items
with zero, one and two equals signs. -/
theorem parseSpecItem_first_equals_witness :
    splitN2 '=' ("key" ++ "=" ++ "a=b") = ["key", "a=b"] ∧
    parseSpecItem {} "noequals" = .error (.malformedPair "noequals" 1) ∧
    parseSpecItem {} ("name" ++ "=" ++ "a=b") = .ok { name := "a=b" } := by
  refine ⟨parseSpecItem_first_equals.1 "key" "a=b" (by decide), ?_, ?_⟩
  · exact (parseSpecItem_first_equals.2.1 {} "noequals").mpr (by decide)
  · exact (parseSpecItem_first_equals.2.2 {} "a=b").1

/-- Lookup fails exactly for keys outside the stored key list. -/
theorem lookupStr_eq_none (m : List (String × String)) (k : String) :
    lookupStr m k = none ↔ k ∉ m.map Prod.fst := by
  induction m with
  | nil => simp [lookupStr]
  | cons hd tl ih =>
    obtain ⟨k0, v0⟩ := hd
    by_cases h0 : k0 = k
    · subst h0
      simp [lookupStr]
    · simp only [lookupStr, if_neg h0, List.map_cons, List.mem_cons, ih]
      constructor
      · rintro hnot (h | h)
        · exact h0 h.symm
        · exact hnot h
      · intro hnot h
        exact hnot (Or.inr h)

/-- Assigning a fresh key appends the binding at the end. -/
theorem insertStr_of_fresh (m : List (String × String)) (k v : String)
    (h : lookupStr m k = none) : insertStr m k v = m ++ [(k, v)] := by
  induction m with
  | nil => simp [insertStr]
  | cons hd tl ih =>
    obtain ⟨k0, v0⟩ := hd
    by_cases h0 : k0 = k
    · rw [lookupStr, if_pos h0] at h
      simp at h
    · rw [lookupStr, if_neg h0] at h
      simp [insertStr, h0, ih h]

/-- Assignment extends the stored key list by the key exactly when the key
is fresh. -/
theorem insertStr_map_fst (m : List (String × String)) (k v : String) :
    (insertStr m k v).map Prod.fst =
      if lookupStr m k = none then m.map Prod.fst ++ [k] else m.map Prod.fst := by
  induction m with
  | nil => simp [insertStr, lookupStr]
  | cons hd tl ih =>
    obtain ⟨k0, v0⟩ := hd
    by_cases h0 : k0 = k
    · simp [insertStr, lookupStr, h0]
    · simp only [insertStr, if_neg h0, lookupStr, List.map_cons, ih]
      by_cases hl : lookupStr tl k = none <;> simp [hl]

/-- Membership in the modelled set after inserting a key. -/
theorem mem_setInsert (l : List String) (k n : String) :
    n ∈ setInsert l k ↔ n ∈ l ∨ n = k := by
  unfold setInsert
  split
  · constructor
    · exact fun h => Or.inl h
    · rintro (h | rfl)
      · exact h
      · assumption
  · simp

/-- Inserting a fresh key into the modelled set appends it. -/
theorem setInsert_of_not_mem (l : List String) (k : String) (h : k ∉ l) :
    setInsert l k = l ++ [k] := by
  unfold setInsert
  rw [if_neg h]

/-- Set insertion preserves freedom from duplicates. -/
theorem setInsert_nodup (l : List String) (k : String) (h : l.Nodup) :
    (setInsert l k).Nodup := by
  unfold setInsert
  split
  · exact h
  · simp_all [List.nodup_append]

/-- Finding in a concatenation searches the left part first. -/
theorem find?_append_first {α : Type} (p : α → Bool) (l1 l2 : List α) :
    (l1 ++ l2).find? p =
      match l1.find? p with
      | some x => some x
      | none => l2.find? p := by
  induction l1 with
  | nil => simp
  | cons a l1 ih =>
    by_cases h : p a
    · simp [List.find?_cons_of_pos _ h]
    · simp [List.find?_cons_of_neg _ h, ih]

/-- The instrumented publish loop computes the same result as the plain
loop. -/
theorem publishTrGo_fst {ε : Type} (ps : imageSpec → Except ε String) :
    ∀ (specs : List imageSpec) (ov : List (String × String)) (un : List String)
      (tr : List imageSpec),
      (publishTrGo ps specs ov un tr).1 = publishGo ps specs ov un := by
  intro specs
  induction specs with
  | nil => intro ov un tr; rfl
  | cons s rest ih =>
    intro ov un tr
    simp only [publishTrGo, publishGo]
    cases hps : ps s <;> simp [ih]

/-- Failing on a spec aborts the instrumented publish loop right there: the
error is returned and exactly the prefix up to and including the failing
spec was attempted. -/
theorem publishTrGo_error {ε : Type} (ps : imageSpec → Except ε String)
    (s : imageSpec) (post : List imageSpec) (e : ε) (hs : ps s = .error e) :
    ∀ (pre : List imageSpec) (ov : List (String × String)) (un : List String)
      (tr : List imageSpec),
      (∀ x ∈ pre, ∃ y, ps x = .ok y) →
      publishTrGo ps (pre ++ s :: post) ov un tr = (.error e, tr ++ (pre ++ [s])) := by
  intro pre
  induction pre with
  | nil =>
    intro ov un tr _
    simp only [List.nil_append, publishTrGo, hs]
  | cons x pre ih =>
    intro ov un tr hpre
    obtain ⟨y, hy⟩ := hpre x (List.mem_cons_self x pre)
    simp only [List.cons_append, publishTrGo, hy]
    simpa using ih (insertStr ov x.name y) (setInsert un x.name) (tr ++ [x])
      (fun z hz => hpre z (List.mem_cons_of_mem x hz))

/-- When every spec publishes and the names are distinct, the loop extends
its accumulators by one binding and one name per spec, in order. -/
theorem publishGo_ok_map {ε : Type} (ps : imageSpec → Except ε String)
    (d : imageSpec → String) :
    ∀ (specs : List imageSpec) (ov : List (String × String)) (un : List String),
      (∀ x ∈ specs, ps x = .ok (d x)) →
      (∀ x ∈ specs, lookupStr ov x.name = none) →
      (∀ x ∈ specs, x.name ∉ un) →
      (specs.map imageSpec.name).Nodup →
      publishGo ps specs ov un =
        .ok (ov ++ specs.map (fun s => (s.name, d s)), un ++ specs.map imageSpec.name) := by
  intro specs
  induction specs with
  | nil => intro ov un _ _ _ _; simp [publishGo]
  | cons s rest ih =>
    intro ov un hok hov hun hnd
    have hs := hok s (List.mem_cons_self s rest)
    simp only [publishGo, hs]
    rw [insertStr_of_fresh _ _ _ (hov s (List.mem_cons_self s rest)),
      setInsert_of_not_mem _ _ (hun s (List.mem_cons_self s rest))]
    have hnd1 : (rest.map imageSpec.name).Nodup := (List.nodup_cons.mp hnd).2
    have hsn : s.name ∉ rest.map imageSpec.name := (List.nodup_cons.mp hnd).1
    rw [ih (ov ++ [(s.name, d s)]) (un ++ [s.name])
      (fun x hx => hok x (List.mem_cons_of_mem s hx))
      (fun x hx => ?_) (fun x hx => ?_) hnd1]
    · simp
    · rw [lookupStr_eq_none]
      simp only [List.map_append, List.map_cons, List.map_nil]
      intro hmem
      rcases List.mem_append.mp hmem with h | h
      · exact (lookupStr_eq_none ov x.name).mp (hov x (List.mem_cons_of_mem s hx)) h
      · simp at h
        exact hsn (h ▸ List.mem_map_of_mem imageSpec.name hx)
    · intro hmem
      rcases List.mem_append.mp hmem with h | h
      · exact hun x (List.mem_cons_of_mem s hx) h
      · simp at h
        exact hsn (h ▸ List.mem_map_of_mem imageSpec.name hx)

/-- Every name inserted by the publish loop is a name of a processed spec
or was already in the accumulated set. -/
theorem publishGo_unseen_mem {ε : Type} (ps : imageSpec → Except ε String) :
    ∀ (specs : List imageSpec) (ov : List (String × String)) (un : List String)
      (ov' : List (String × String)) (un' : List String),
      publishGo ps specs ov un = .ok (ov', un') →
      ∀ n, n ∈ un' ↔ n ∈ un ∨ n ∈ specs.map imageSpec.name := by
  intro specs
  induction specs with
  | nil =>
    intro ov un ov' un' h n
    simp only [publishGo, Except.ok.injEq, Prod.mk.injEq] at h
    simp [← h.2]
  | cons s rest ih =>
    intro ov un ov' un' h n
    simp only [publishGo] at h
    cases hps : ps s with
    | error e => rw [hps] at h; simp at h
    | ok dv =>
      rw [hps] at h
      rw [ih _ _ _ _ h n, mem_setInsert]
      simp only [List.map_cons, List.mem_cons]
      tauto

/-- The publish loop preserves freedom from duplicates of the stored keys
and of the unseen set. -/
theorem publishGo_nodup {ε : Type} (ps : imageSpec → Except ε String) :
    ∀ (specs : List imageSpec) (ov : List (String × String)) (un : List String)
      (ov' : List (String × String)) (un' : List String),
      (ov.map Prod.fst).Nodup → un.Nodup →
      publishGo ps specs ov un = .ok (ov', un') →
      (ov'.map Prod.fst).Nodup ∧ un'.Nodup := by
  intro specs
  induction specs with
  | nil =>
    intro ov un ov' un' hov hun h
    simp only [publishGo, Except.ok.injEq, Prod.mk.injEq] at h
    rw [← h.1, ← h.2]
    exact ⟨hov, hun⟩
  | cons s rest ih =>
    intro ov un ov' un' hov hun h
    simp only [publishGo] at h
    cases hps : ps s with
    | error e => rw [hps] at h; simp at h
    | ok dv =>
      rw [hps] at h
      refine ih _ _ _ _ ?_ (setInsert_nodup _ _ hun) h
      rw [insertStr_map_fst]
      by_cases hl : lookupStr ov s.name = none
      · rw [if_pos hl]
        have hfresh : s.name ∉ ov.map Prod.fst := (lookupStr_eq_none ov s.name).mp hl
        rw [List.nodup_append]
        refine ⟨hov, List.nodup_singleton _, ?_⟩
        intro a ha hb
        simp only [List.mem_singleton] at hb
        subst hb
        exact hfresh ha
      · rw [if_neg hl]
        exact hov

/-- The entry stored for a name is decided by the last processed spec with
that name; untouched names keep their accumulated binding. -/
theorem publishGo_lookup {ε : Type} (ps : imageSpec → Except ε String) :
    ∀ (specs : List imageSpec) (ov : List (String × String)) (un : List String)
      (ov' : List (String × String)) (un' : List String),
      publishGo ps specs ov un = .ok (ov', un') →
      ∀ n, lookupStr ov' n =
        match specs.reverse.find? (fun x => x.name == n) with
        | some t => (ps t).toOption
        | none => lookupStr ov n := by
  intro specs
  induction specs with
  | nil =>
    intro ov un ov' un' h n
    simp only [publishGo, Except.ok.injEq, Prod.mk.injEq] at h
    simp [← h.1]
  | cons s rest ih =>
    intro ov un ov' un' h n
    simp only [publishGo] at h
    cases hps : ps s with
    | error e => rw [hps] at h; simp at h
    | ok dv =>
      rw [hps] at h
      rw [ih _ _ _ _ h n]
      simp only [List.reverse_cons, find?_append_first]
      cases hf : rest.reverse.find? (fun x => x.name == n) with
      | some t => simp
      | none =>
        by_cases hn : s.name = n
        · simp [List.find?, hn, hps, Except.toOption, lookupStr_insertStr]
        · have hb : (s.name == n) = false := beq_eq_false_iff_ne.mpr hn
          simp [List.find?, lookupStr_insertStr, hn, hb]

/-- C3: publish processes its specs sequentially, aborts on the first
failing spec with that error having attempted exactly the specs up to and
including it, and on success with distinct names returns one binding per
spec from its original name to its digest reference together with the list
of all original names. -/
theorem publish_sequential_failfast :
    (∀ (ε : Type) (ps : imageSpec → Except ε String) (pre : List imageSpec) (s : imageSpec)
      (post : List imageSpec) (e : ε),
      (∀ x ∈ pre, ∃ y, ps x = .ok y) → ps s = .error e →
      publish ps (pre ++ s :: post) = .error e ∧
      publishTr ps (pre ++ s :: post) = (.error e, pre ++ [s])) ∧
    (∀ (ε : Type) (ps : imageSpec → Except ε String) (specs : List imageSpec)
      (d : imageSpec → String),
      (∀ x ∈ specs, ps x = .ok (d x)) → (specs.map imageSpec.name).Nodup →
      publish ps specs =
        .ok (specs.map (fun s => (s.name, d s)), specs.map imageSpec.name)) := by
  constructor
  · intro ε ps pre s post e hpre hs
    have htr := publishTrGo_error ps s post e hs pre [] [] [] hpre
    constructor
    · unfold publish
      rw [← publishTrGo_fst ps (pre ++ s :: post) [] [] [], htr]
    · unfold publishTr
      rw [htr]
      simp
  · intro ε ps specs d hok hnd
    have h := publishGo_ok_map ps d specs [] [] hok (fun x _ => rfl) (fun x _ => by simp) hnd
    unfold publish
    rw [h]
    simp

/-- C3 witness: publish at a concrete failing spec list and at a concrete
succeeding spec list. -/
theorem publish_sequential_failfast_witness :
    (publish psDemo [{ name := "a" }, { name := "bad" }, { name := "c" }] = .error "boom" ∧
      publishTr psDemo [{ name := "a" }, { name := "bad" }, { name := "c" }] =
        (.error "boom", [{ name := "a" }, { name := "bad" }])) ∧
    publish psDemo [{ name := "a" }, { name := "b" }] =
      .ok ([("a", "ref-a"), ("b", "ref-b")], ["a", "b"]) := by
  constructor
  · exact publish_sequential_failfast.1 String psDemo [{ name := "a" }] { name := "bad" }
      [{ name := "c" }] "boom"
      (by
        intro x hx
        simp only [List.mem_singleton] at hx
        subst hx
        exact ⟨"ref-a", rfl⟩)
      rfl
  · exact publish_sequential_failfast.2 String psDemo [{ name := "a" }, { name := "b" }]
      (fun s => "ref-" ++ s.name)
      (by
        intro x hx
        rcases List.mem_cons.mp hx with h | h
        · subst h; rfl
        · simp only [List.mem_singleton] at h
          subst h; rfl)
      (by decide)

/-- C4: each string-resolver call preserves every existing cache binding,
so the cache only gains entries and never changes the value of a stored
key, and turns the unseen set into the old set with the argument removed,
so it only shrinks, the argument is gone even on failed or no-op
resolutions, and nothing is added; the unseen set produced by publish holds
exactly the published names. -/
theorem resolver_state_invariants :
    (∀ (env : RegistryEnv) (r : ResolverState) (s out : String) (r1 : ResolverState),
      resolveString env r s = .ok (out, r1) →
      (∀ k v, lookupStr r.resolvedImages k = some v → lookupStr r1.resolvedImages k = some v) ∧
      r1.unseen = r.unseen.filter (fun x => x ≠ s) ∧
      (∀ x ∈ r1.unseen, x ∈ r.unseen) ∧ s ∉ r1.unseen) ∧
    (∀ (ε : Type) (ps : imageSpec → Except ε String) (specs : List imageSpec)
      (ov : List (String × String)) (un : List String),
      publish ps specs = .ok (ov, un) →
      ∀ n, n ∈ un ↔ n ∈ specs.map imageSpec.name) := by
  constructor
  · intro env r s out r1 h
    have hsub : ∀ x ∈ r.unseen.filter (fun y => y ≠ s), x ∈ r.unseen :=
      fun x hx => (List.mem_filter.mp hx).1
    have hns : s ∉ r.unseen.filter (fun y => y ≠ s) := by simp [List.mem_filter]
    simp only [resolveString] at h
    cases hl : lookupStr r.resolvedImages s with
    | some o =>
      simp only [hl, Except.ok.injEq, Prod.mk.injEq] at h
      obtain ⟨rfl, rfl⟩ := h
      exact ⟨fun k v hk => hk, rfl, hsub, hns⟩
    | none =>
      simp only [hl] at h
      cases ht : env.newTag s with
      | none =>
        simp only [ht, Except.ok.injEq, Prod.mk.injEq] at h
        obtain ⟨rfl, rfl⟩ := h
        exact ⟨fun k v hk => hk, rfl, hsub, hns⟩
      | some t =>
        simp only [ht] at h
        cases ha : env.resolveKeychain t with
        | none =>
          simp only [ha, Except.ok.injEq, Prod.mk.injEq] at h
          obtain ⟨rfl, rfl⟩ := h
          exact ⟨fun k v hk => hk, rfl, hsub, hns⟩
        | some auth =>
          simp only [ha] at h
          cases hg : env.remoteGet t auth with
          | none =>
            simp only [hg, Except.ok.injEq, Prod.mk.injEq] at h
            obtain ⟨rfl, rfl⟩ := h
            exact ⟨fun k v hk => hk, rfl, hsub, hns⟩
          | some desc =>
            simp only [hg, Except.ok.injEq, Prod.mk.injEq] at h
            obtain ⟨rfl, rfl⟩ := h
            refine ⟨?_, rfl, hsub, hns⟩
            intro k v hk
            simp only [lookupStr_insertStr]
            by_cases hsk : s = k
            · rw [← hsk] at hk
              rw [hk] at hl
              cases hl
            · rw [if_neg hsk]
              exact hk
  · intro ε ps specs ov un h n
    rw [publishGo_unseen_mem ps specs [] [] ov un h n]
    simp

/-- C4 witness: a successful resolution at the registry envGood from the
state rFix, and the published names of a concrete two-spec publish. -/
theorem resolver_state_invariants_witness :
    ((∀ k v, lookupStr rFix.resolvedImages k = some v →
        lookupStr rFixAfter.resolvedImages k = some v) ∧
      rFixAfter.unseen = rFix.unseen.filter (fun x => x ≠ "gcr.io/foo/bar:v1") ∧
      (∀ x ∈ rFixAfter.unseen, x ∈ rFix.unseen) ∧
      "gcr.io/foo/bar:v1" ∉ rFixAfter.unseen) ∧
    ("a" ∈ (["a", "b"] : List String) ↔
      "a" ∈ ([{ name := "a" }, { name := "b" }] : List imageSpec).map imageSpec.name) := by
  constructor
  · exact resolver_state_invariants.1 envGood rFix "gcr.io/foo/bar:v1"
      "gcr.io/foo/bar@sha256:abc" rFixAfter rfl
  · exact resolver_state_invariants.2 String psDemo [{ name := "a" }, { name := "b" }]
      [("a", "ref-a"), ("b", "ref-b")] ["a", "b"] rfl "a"

/-- C10: the overrides keys and the unseen set are always duplicate-free,
the binding stored for a name is the digest reference of the last
successfully published spec carrying that name, and publishing two specs
sharing one name yields a single overrides entry holding the digest of the
later spec and the shared name exactly once in the unseen set, which is
therefore smaller than the spec list. -/
theorem publish_duplicate_names :
    (∀ (ε : Type) (ps : imageSpec → Except ε String) (specs : List imageSpec)
      (ov : List (String × String)) (un : List String),
      publish ps specs = .ok (ov, un) → (ov.map Prod.fst).Nodup ∧ un.Nodup) ∧
    (∀ (ε : Type) (ps : imageSpec → Except ε String) (specs : List imageSpec)
      (ov : List (String × String)) (un : List String) (n dv : String) (t : imageSpec),
      publish ps specs = .ok (ov, un) →
      specs.reverse.find? (fun x => x.name == n) = some t →
      ps t = .ok dv → lookupStr ov n = some dv) ∧
    (∀ (ps : imageSpec → Except String String) (s1 s2 : imageSpec) (d1 d2 : String),
      s1.name = s2.name → ps s1 = .ok d1 → ps s2 = .ok d2 →
      publish ps [s1, s2] = .ok ([(s1.name, d2)], [s1.name]) ∧
      ([s1.name] : List String).length < ([s1, s2] : List imageSpec).length) := by
  refine ⟨?_, ?_, ?_⟩
  · intro ε ps specs ov un h
    exact publishGo_nodup ps specs [] [] ov un (by simp) (by simp) h
  · intro ε ps specs ov un n dv t h hf hval
    rw [publishGo_lookup ps specs [] [] ov un h n, hf]
    simp [hval, Except.toOption]
  · intro ps s1 s2 d1 d2 hname h1 h2
    refine ⟨?_, by simp⟩
    simp [publish, publishGo, h1, h2, insertStr, setInsert, hname]

/-- C10 witness: publishing two concrete specs with the same name and
distinct digests. -/
theorem publish_duplicate_names_witness :
    publish (fun s => (Except.ok ("ref-" ++ s.imgTarball) : Except String String))
      [{ name := "a", imgTarball := "t1" }, { name := "a", imgTarball := "t2" }] =
      .ok ([("a", "ref-t2")], ["a"]) ∧
    (["a"] : List String).length <
      ([{ name := "a", imgTarball := "t1" }, { name := "a", imgTarball := "t2" }] :
        List imageSpec).length := by
  have h := publish_duplicate_names.2.2 (fun s => Except.ok ("ref-" ++ s.imgTarball))
    { name := "a", imgTarball := "t1" } { name := "a", imgTarball := "t2" }
    "ref-t1" "ref-t2" rfl rfl rfl
  exact ⟨h.1, h.2⟩

mutual

/-- Node equality is reflexive. -/
theorem nodeEq_refl : ∀ n : Node, nodeEq n n = true
  | .str a => by simp [nodeEq]
  | .int a => by simp [nodeEq]
  | .bool a => by simp [nodeEq]
  | .null => by simp [nodeEq]
  | .seq l => by rw [show nodeEq (.seq l) (.seq l) = nodeListEq l l from by simp [nodeEq]]; exact nodeListEq_refl l
  | .map m => by rw [show nodeEq (.map m) (.map m) = nodePairsEq m m from by simp [nodeEq]]; exact nodePairsEq_refl m

/-- Node list equality is reflexive. -/
theorem nodeListEq_refl : ∀ l : List Node, nodeListEq l l = true
  | [] => by simp [nodeListEq]
  | a :: as => by
    simp only [nodeListEq, Bool.and_eq_true]
    exact ⟨nodeEq_refl a, nodeListEq_refl as⟩

/-- Node pair list equality is reflexive. -/
theorem nodePairsEq_refl : ∀ m : List (Node × Node), nodePairsEq m m = true
  | [] => by simp [nodePairsEq]
  | (k, v) :: rest => by
    simp only [nodePairsEq, Bool.and_eq_true]
    exact ⟨⟨nodeEq_refl k, nodeEq_refl v⟩, nodePairsEq_refl rest⟩

end

/-- Assignment into the rebuilt node mapping grows it by at most one
entry. -/
theorem insertNode_length (acc : List (Node × Node)) (k v : Node) :
    (insertNode acc k v).length ≤ acc.length + 1 := by
  induction acc with
  | nil => simp [insertNode]
  | cons hd tl ih =>
    obtain ⟨k0, v0⟩ := hd
    by_cases h : nodeEq k0 k = true
    · simp [insertNode, h]
    · simp only [insertNode, if_neg h, List.length_cons]
      omega

/-- The rebuilt mapping of the map-resolution loop never has more entries
than the accumulator plus the remaining input pairs. -/
theorem resolveMapGo_length (sr : StrResolver) :
    ∀ (m : List (Node × Node)) (st : ResolverState) (acc out : List (Node × Node))
      (st' : ResolverState),
      resolveMapGo sr st acc m = .ok (out, st') → out.length ≤ acc.length + m.length := by
  intro m
  induction m with
  | nil =>
    intro st acc out st' h
    simp only [resolveMapGo, Except.ok.injEq, Prod.mk.injEq] at h
    rw [← h.1]
    simp
  | cons p rest ih =>
    obtain ⟨k, v⟩ := p
    intro st acc out st' h
    simp only [resolveMapGo] at h
    cases hk : resolveItem sr st k with
    | error e => simp only [hk] at h; exact Except.noConfusion h
    | ok pk =>
      obtain ⟨rk, st1⟩ := pk
      simp only [hk] at h
      cases hv : resolveItem sr st1 v with
      | error e => simp only [hv] at h; exact Except.noConfusion h
      | ok pv =>
        obtain ⟨rv, st2⟩ := pv
        simp only [hv] at h
        have := ih st2 (insertNode acc rk rv) out st' h
        have hin := insertNode_length acc rk rv
        simp only [List.length_cons]
        omega

/-- C5: resolveMap resolves every key and every value in visit order; when
the two keys of a two-entry mapping resolve to the same node the rebuilt
mapping keeps only the later pair, so the result (never longer than the
input) can have fewer entries than the original. -/
theorem resolveMap_key_collision :
    (∀ (sr : StrResolver) (st : ResolverState) (m out : List (Node × Node))
      (st' : ResolverState),
      resolveMap sr st m = .ok (out, st') → out.length ≤ m.length) ∧
    (∀ (sr : StrResolver) (st st1 st2 st3 st4 : ResolverState)
      (k1 v1 k2 v2 rk rv1 rk2 rv2 : Node),
      resolveItem sr st k1 = .ok (rk, st1) →
      resolveItem sr st1 v1 = .ok (rv1, st2) →
      resolveItem sr st2 k2 = .ok (rk2, st3) →
      resolveItem sr st3 v2 = .ok (rv2, st4) →
      rk2 = rk →
      resolveMap sr st [(k1, v1), (k2, v2)] = .ok ([(rk, rv2)], st4) ∧
      ([(rk, rv2)] : List (Node × Node)).length <
        ([(k1, v1), (k2, v2)] : List (Node × Node)).length) := by
  constructor
  · intro sr st m out st' h
    have := resolveMapGo_length sr m st [] out st' h
    simpa using this
  · intro sr st st1 st2 st3 st4 k1 v1 k2 v2 rk rv1 rk2 rv2 h1 h2 h3 h4 heq
    subst heq
    refine ⟨?_, by simp⟩
    simp only [resolveMap, resolveMapGo, h1, h2, h3, h4]
    simp [insertNode, nodeEq_refl]

/-- C5 witness: a concrete two-entry mapping whose keys a and b both
resolve to z under the collapsing string resolver. -/
theorem resolveMap_key_collision_witness :
    resolveMap srCollapse st0 [(.str "a", .str "x"), (.str "b", .str "y")] =
      .ok ([(.str "z", .str "y")], st0) ∧
    ([(Node.str "z", Node.str "y")] : List (Node × Node)).length <
      ([(Node.str "a", Node.str "x"), (Node.str "b", Node.str "y")] :
        List (Node × Node)).length := by
  have h := resolveMap_key_collision.2 srCollapse st0 st0 st0 st0 st0
    (.str "a") (.str "x") (.str "b") (.str "y") (.str "z") (.str "x") (.str "z") (.str "y")
    (by simp [resolveItem, srCollapse]) (by simp [resolveItem, srCollapse])
    (by simp [resolveItem, srCollapse]) (by simp [resolveItem, srCollapse]) rfl
  exact ⟨h.1, h.2⟩

/-- C6 (amended): resolveList processes a sequence strictly left to right
threading the state, a successful result has the same length as the input,
and the first failing element aborts the walk with an error naming the
failing element (but not its position). -/
theorem resolveList_order_failfast :
    (∀ (sr : StrResolver) (st : ResolverState) (l1 l2 : List Node),
      resolveList sr st (l1 ++ l2) =
        (resolveList sr st l1).bind (fun p =>
          (resolveList sr p.2 l2).map (fun q => (p.1 ++ q.1, q.2)))) ∧
    (∀ (sr : StrResolver) (st : ResolverState) (l out : List Node) (st' : ResolverState),
      resolveList sr st l = .ok (out, st') → out.length = l.length) ∧
    (∀ (sr : StrResolver) (st st1 : ResolverState) (pre : List Node) (x : Node)
      (post rpre : List Node) (e : RErr),
      resolveList sr st pre = .ok (rpre, st1) → resolveItem sr st1 x = .error e →
      resolveList sr st (pre ++ x :: post) = .error (.listItem x e)) := by
  refine ⟨?_, ?_, ?_⟩
  · intro sr st l1 l2
    induction l1 generalizing st with
    | nil =>
      simp only [List.nil_append]
      cases h : resolveList sr st l2 with
      | error e => simp [resolveList, h, Except.bind, Except.map]
      | ok p => simp [resolveList, h, Except.bind, Except.map]
    | cons a l1 ih =>
      simp only [List.cons_append]
      cases ha : resolveItem sr st a with
      | error e => simp [resolveList, ha, Except.bind]
      | ok p =>
        obtain ⟨o, stx⟩ := p
        simp only [resolveList, ha, ih stx]
        cases h1 : resolveList sr stx l1 with
        | error e => simp [h1, Except.bind]
        | ok q =>
          obtain ⟨r1, sty⟩ := q
          cases h2 : resolveList sr sty l2 with
          | error e => simp [h1, h2, Except.bind, Except.map]
          | ok q2 => simp [h1, h2, Except.bind, Except.map]
  · intro sr st l out st' h
    induction l generalizing st out st' with
    | nil =>
      simp only [resolveList, Except.ok.injEq, Prod.mk.injEq] at h
      rw [← h.1]
    | cons a l ih =>
      simp only [resolveList] at h
      cases ha : resolveItem sr st a with
      | error e => simp only [ha] at h; exact Except.noConfusion h
      | ok p =>
        obtain ⟨o, stx⟩ := p
        simp only [ha] at h
        cases hrest : resolveList sr stx l with
        | error e => simp only [hrest] at h; exact Except.noConfusion h
        | ok q =>
          obtain ⟨os, sty⟩ := q
          simp only [hrest, Except.ok.injEq, Prod.mk.injEq] at h
          rw [← h.1]
          simp [ih stx os sty hrest]
  · intro sr st st1 pre x post rpre e hpre hx
    induction pre generalizing st rpre with
    | nil =>
      simp only [resolveList, Except.ok.injEq, Prod.mk.injEq] at hpre
      rw [← hpre.2] at hx
      simp only [List.nil_append, resolveList, hx]
    | cons a pre ih =>
      simp only [resolveList] at hpre
      cases ha : resolveItem sr st a with
      | error e2 => simp only [ha] at hpre; exact Except.noConfusion hpre
      | ok p =>
        obtain ⟨o, stx⟩ := p
        simp only [ha] at hpre
        cases hp : resolveList sr stx pre with
        | error e2 => simp only [hp] at hpre; exact Except.noConfusion hpre
        | ok q =>
          obtain ⟨os, sty⟩ := q
          simp only [hp, Except.ok.injEq, Prod.mk.injEq] at hpre
          have hst1 : sty = st1 := hpre.2
          subst hst1
          simp only [List.cons_append, resolveList, List.append_eq, ha, ih stx os hp]

/-- C6 witness: a concrete successful two-element list and a concrete list
whose second element fails. -/
theorem resolveList_order_failfast_witness :
    ([Node.str "p", Node.str "q"] : List Node).length = ([Node.str "p", Node.str "q"] : List Node).length ∧
    resolveList srBoom st0 [Node.str "ok", Node.str "bad"] =
      .error (.listItem (Node.str "bad") (.strErr "boom")) := by
  constructor
  · exact resolveList_order_failfast.2.1 srBoom st0 [Node.str "p", Node.str "q"]
      [Node.str "p", Node.str "q"] st0 (by simp [resolveList, resolveItem, srBoom])
  · exact resolveList_order_failfast.2.2 srBoom st0 st0 [Node.str "ok"] (Node.str "bad")
      [] [Node.str "ok"] (.strErr "boom")
      (by simp [resolveList, resolveItem, srBoom])
      (by simp [resolveItem, srBoom])

/-- C6 counterexample: the contextual error does not name the position of
the failing element: the same failing element at position zero of a
one-element list and at position one of a two-element list produces
identical errors. -/
theorem resolveList_no_position_counterexample :
    resolveList srBoom st0 [Node.str "bad"] =
      .error (.listItem (Node.str "bad") (.strErr "boom")) ∧
    resolveList srBoom st0 [Node.str "ok", Node.str "bad"] =
      .error (.listItem (Node.str "bad") (.strErr "boom")) := by
  constructor
  · simp [resolveList, resolveItem, srBoom]
  · simp [resolveList, resolveItem, srBoom]

/-- The instrumented string resolver computes the same result as
resolveString; the second component only adds the call trace. -/
theorem resolveStringTr_fst (env : RegistryEnv) (r : ResolverState) (s : String) :
    (resolveStringTr env r s).1 = resolveString env r s := by
  simp only [resolveStringTr, resolveString]
  cases hl : lookupStr r.resolvedImages s with
  | some o => simp [hl]
  | none =>
    simp only [hl]
    cases ht : env.newTag s with
    | none => simp [ht]
    | some t =>
      simp only [ht]
      cases ha : env.resolveKeychain t with
      | none => simp [ha]
      | some auth =>
        simp only [ha]
        cases hg : env.remoteGet t auth with
        | none => simp [hg]
        | some desc => simp [hg]

/-- C7 (amended): a cache hit returns the cached value while performing no
tag parse, no credential resolution and no descriptor fetch, and resolving
the same string twice fetches from the registry at most once provided the
first call does not end in a failed fetch. -/
theorem resolveString_cache_hit_no_refetch :
    (∀ (env : RegistryEnv) (r : ResolverState) (s v : String),
      lookupStr r.resolvedImages s = some v →
      resolveStringTr env r s =
        (.ok (v, { r with unseen := r.unseen.filter (fun x => x ≠ s) }), [])) ∧
    (∀ (env : RegistryEnv) (r : ResolverState) (s out : String) (r1 : ResolverState),
      resolveString env r s = .ok (out, r1) →
      RegCall.descFetch false ∉ (resolveStringTr env r s).2 →
      fetchCount (resolveStringTr env r s).2 + fetchCount (resolveStringTr env r1 s).2 ≤ 1) := by
  constructor
  · intro env r s v hl
    simp [resolveStringTr, hl]
  · intro env r s out r1 h hnf
    simp only [resolveString] at h
    cases hl : lookupStr r.resolvedImages s with
    | some o =>
      simp only [hl, Except.ok.injEq, Prod.mk.injEq] at h
      obtain ⟨rfl, rfl⟩ := h
      simp [resolveStringTr, hl, fetchCount]
    | none =>
      simp only [hl] at h
      cases ht : env.newTag s with
      | none =>
        simp only [ht, Except.ok.injEq, Prod.mk.injEq] at h
        obtain ⟨rfl, rfl⟩ := h
        simp [resolveStringTr, hl, ht, fetchCount]
      | some t =>
        simp only [ht] at h
        cases ha : env.resolveKeychain t with
        | none =>
          simp only [ha, Except.ok.injEq, Prod.mk.injEq] at h
          obtain ⟨rfl, rfl⟩ := h
          simp [resolveStringTr, hl, ht, ha, fetchCount]
        | some auth =>
          simp only [ha] at h
          cases hg : env.remoteGet t auth with
          | none =>
            exfalso
            apply hnf
            simp [resolveStringTr, hl, ht, ha, hg]
          | some desc =>
            simp only [hg, Except.ok.injEq, Prod.mk.injEq] at h
            obtain ⟨rfl, rfl⟩ := h
            have hl2 : lookupStr
                (insertStr r.resolvedImages s
                  (t.registry ++ "/" ++ t.repository ++ "@" ++ desc.digest)) s =
                some (t.registry ++ "/" ++ t.repository ++ "@" ++ desc.digest) := by
              rw [lookupStr_insertStr]
              simp
            simp [resolveStringTr, hl, ht, ha, hg, hl2, fetchCount]

/-- C7 witness: a cache hit at a concrete cached state, and the two-call
fetch bound at the registry envGood starting from the empty state. -/
theorem resolveString_cache_hit_no_refetch_witness :
    resolveStringTr envGood rFixAfter "gcr.io/foo/bar:v1" =
      (.ok ("gcr.io/foo/bar@sha256:abc",
        { rFixAfter with
            unseen := rFixAfter.unseen.filter (fun x => x ≠ "gcr.io/foo/bar:v1") }), []) ∧
    fetchCount (resolveStringTr envGood st0 "gcr.io/foo/bar:v1").2 +
      fetchCount (resolveStringTr envGood
        ⟨[("gcr.io/foo/bar:v1", "gcr.io/foo/bar@sha256:abc")], [], 0⟩ "gcr.io/foo/bar:v1").2 ≤ 1 := by
  constructor
  · exact resolveString_cache_hit_no_refetch.1 envGood rFixAfter "gcr.io/foo/bar:v1"
      "gcr.io/foo/bar@sha256:abc" rfl
  · exact resolveString_cache_hit_no_refetch.2 envGood st0 "gcr.io/foo/bar:v1"
      "gcr.io/foo/bar@sha256:abc"
      ⟨[("gcr.io/foo/bar:v1", "gcr.io/foo/bar@sha256:abc")], [], 0⟩ rfl (by decide)

/-- C7 counterexample: at a registry whose descriptor fetch always fails,
resolving the very same tag string twice performs two registry fetches, not
at most one. -/
theorem resolveString_two_fetch_counterexample :
    resolveString envFetchFail st0 "img" = .ok ("img", st0) ∧
    fetchCount (resolveStringTr envFetchFail st0 "img").2 +
      fetchCount (resolveStringTr envFetchFail st0 "img").2 = 2 := by
  constructor
  · rfl
  · rfl

end K8sResolver
